import Mathlib

/-!
Verification development for the zkevm-node parallel L1 rollup-info producer
(the `synchronizer` package's `l1RollupInfoProducer`) and for the sequencer's
`batchResources.sub`.

Conventions of the embedding:
* Durations and instants are `Int` nanoseconds (Go `time.Duration` is an
  int64 count of nanoseconds; `time.Since t = now - t`).
* Block numbers are `Nat` (Go `uint64`; none of the verified properties
  concerns wrap-around at `2^64`).
* The producer's logging and its `statistics` struct are observational only
  (they feed log lines, never control flow), so they are omitted.
* Stateful Go methods become functions returning the updated state.
-/

namespace Synchronizer

/-! ### Constants (source: the `const` block of the producer file) -/

/-- Source: `ttlOfLastBlockDefault = time.Second * 5`. -/
def ttlOfLastBlockDefault : Int := 5 * 1000000000

/-- Source: `timeOutMainLoop = time.Minute * 5`. -/
def timeOutMainLoop : Int := 5 * 60 * 1000000000

/-- Source: `maxRetriesForRequestnitialValueOfLastBlock = 10`. -/
def maxRetriesForRequestnitialValueOfLastBlock : Nat := 10

/-- Source: `timeRequestInitialValueOfLastBlock = time.Second * 5`. -/
def timeRequestInitialValueOfLastBlock : Int := 5 * 1000000000

/-- One `time.Second` in nanoseconds. -/
def oneSecond : Int := 1000000000

/-! ### Block ranges and messages -/

/-- An inclusive block interval `[fromBlock, toBlock]`. -/
structure blockRange where
  fromBlock : Nat
  toBlock : Nat
deriving DecidableEq, Repr

/-- Length of an inclusive range (`to - from + 1`; used by the statistics). -/
def blockRange.len (br : blockRange) : Nat := br.toBlock + 1 - br.fromBlock

/-- The producer's coarse mode. -/
inductive syncStatusEnum where
  | idle
  | working
  | synchronized
deriving DecidableEq, Repr

/-- The only control event the producer emits. -/
inductive eventEnum where
  | producerIsFullySynced
deriving DecidableEq, Repr

/-- A message on the outgoing channel: a data chunk (identified by its block
range; the rollup payload is opaque to the core, only the range is inspected
for ordering) or a control event. -/
inductive l1SyncMessage where
  | data (rollupInfo : blockRange)
  | control (event : eventEnum)
deriving DecidableEq, Repr

/-- Payload of a worker response for a block-range request; only the
originating range matters to the producer's bookkeeping. -/
structure responseRollupInfoByBlockRange where
  blockRange : blockRange
deriving DecidableEq, Repr

/-- A worker response: an optional error and the result (which always
carries the originating range, used for reconciliation). -/
structure genericResponse where
  err : Option String
  result : responseRollupInfoByBlockRange
deriving DecidableEq, Repr

/-- Result of a blocking head request (`requestLastBlockWithRetries`):
an optional error and the retrieved last block number. -/
structure headResponse where
  err : Option String
  block : Nat
deriving DecidableEq, Repr

/-! ### Sync status

Modelled from the spec: the implementation of the Sync Status ledger
(`newSyncStatus` and its methods) is not among the repository files here,
only its interface `syncStatusInterface`; the definitions below follow the
spec's Sync Status contract (state fields, `nextRange`, `onStarted`,
`onFinished`, `onNewHead` and the mode equations). -/

/-- Modelled from the spec: the Sync Status state. `lastBlockOnL1 = none`
models the head being unknown (first boot, no refresh succeeded yet). -/
structure syncStatusModel where
  startingBlockNumber : Nat
  chunkSize : Nat
  lastBlockOnL1 : Option Nat
  nextBlockToAsk : Nat
  processingRanges : List blockRange
deriving DecidableEq, Repr

/-- Modelled from the spec: the fresh Sync Status (head unknown, nothing in
flight, next block to ask is the starting block). The time-to-live of the
head is kept in the producer state, which is where the producer reads it. -/
def newSyncStatus (startingBlockNumber SyncChunkSize : Nat) : syncStatusModel :=
  { startingBlockNumber := startingBlockNumber
    chunkSize := SyncChunkSize
    lastBlockOnL1 := none
    nextBlockToAsk := startingBlockNumber
    processingRanges := [] }

/-- Modelled from the spec: the mode equations. `Idle` iff the head is
unknown; `Synchronized` iff nothing is in flight and `nextBlockToAsk` is
past the head; `Working` otherwise. -/
def syncStatusModel.getStatus (s : syncStatusModel) : syncStatusEnum :=
  match s.lastBlockOnL1 with
  | none => .idle
  | some last =>
    if last < s.nextBlockToAsk ∧ s.processingRanges = [] then .synchronized else .working

/-- Modelled from the spec: the next range to dispatch,
`[nextBlockToAsk, min (nextBlockToAsk + chunkSize - 1) lastBlockOnL1]`;
`none` when the head is unknown (mode `Idle`) or no range remains. This is
a pure query; the bookkeeping happens in `onStartedNewWorker`, which must
follow the `getNextRange` that produced the range. -/
def syncStatusModel.getNextRange (s : syncStatusModel) : Option blockRange :=
  match s.lastBlockOnL1 with
  | none => none
  | some last =>
    if s.nextBlockToAsk ≤ last then
      some ⟨s.nextBlockToAsk, min (s.nextBlockToAsk + s.chunkSize - 1) last⟩
    else none

/-- Modelled from the spec: record a dispatched range as in flight and
advance `nextBlockToAsk` past it (ranges advance as they are handed out,
not as they complete). -/
def syncStatusModel.onStartedNewWorker (s : syncStatusModel) (br : blockRange) :
    syncStatusModel :=
  { s with
    processingRanges := s.processingRanges ++ [br]
    nextBlockToAsk := br.toBlock + 1 }

/-- Modelled from the spec: a dispatched range completed. It leaves the
in-flight set; on failure `nextBlockToAsk` rewinds to
`min nextBlockToAsk range.from` so the range is re-issued. -/
def syncStatusModel.onFinishWorker (s : syncStatusModel) (br : blockRange)
    (successful : Bool) : syncStatusModel :=
  let s1 := { s with processingRanges := s.processingRanges.erase br }
  if successful then s1
  else { s1 with nextBlockToAsk := min s1.nextBlockToAsk br.fromBlock }

/-- Response of `onNewLastBlockOnL1`: the full known window and, when the
head moved, the newly exposed sub-range. -/
structure onNewLastBlockResponse where
  fullRange : blockRange
  extendedRange : Option blockRange
deriving DecidableEq, Repr

/-- Modelled from the spec: a new head observation. If it is above the
known head the window widens and the newly exposed sub-range is reported;
otherwise the state is unchanged. -/
def syncStatusModel.onNewLastBlockOnL1 (s : syncStatusModel) (lastBlock : Nat) :
    syncStatusModel × onNewLastBlockResponse :=
  match s.lastBlockOnL1 with
  | none =>
    ({ s with lastBlockOnL1 := some lastBlock },
     ⟨⟨s.startingBlockNumber, lastBlock⟩, some ⟨s.startingBlockNumber, lastBlock⟩⟩)
  | some old =>
    if old < lastBlock then
      ({ s with lastBlockOnL1 := some lastBlock },
       ⟨⟨s.startingBlockNumber, lastBlock⟩, some ⟨old + 1, lastBlock⟩⟩)
    else (s, ⟨⟨s.startingBlockNumber, old⟩, none⟩)

/-- Modelled from the spec: at initialization the head refresh is needed
exactly when the head was never observed. -/
def syncStatusModel.needToRenewLastBlockOnL1 (s : syncStatusModel) : Bool :=
  s.lastBlockOnL1 = none

/-! ### Reorder filter

Modelled from the spec: the implementation
(`newFilterToSendOrdererResultsToConsumer` and its `filter` method) is not
among the repository files here, only the `filter` interface; the
definitions below follow the spec's Reorder Filter algorithm: drop a chunk
already delivered, buffer a chunk at or past `nextExpectedBlock` keyed by
its `from`, and release the longest adjacent prefix starting exactly at
`nextExpectedBlock`. -/

/-- Modelled from the spec: the Reorder Filter state — the next block
number expected by the consumer and the buffer of out-of-order chunks,
kept ordered by `fromBlock`. -/
structure filterModel where
  nextExpectedBlock : Nat
  buffer : List blockRange
deriving DecidableEq, Repr

/-- Modelled from the spec: the fresh filter expects `startingBlockNumber`
first and buffers nothing. -/
def newFilterToSendOrdererResultsToConsumer (startingBlockNumber : Nat) : filterModel :=
  ⟨startingBlockNumber, []⟩

/-- Insert a chunk into the buffer, keeping it ordered by `fromBlock`. -/
def insertByFrom (c : blockRange) : List blockRange → List blockRange
  | [] => [c]
  | b :: rest => if c.fromBlock ≤ b.fromBlock then c :: b :: rest else b :: insertByFrom c rest

/-- Release the longest prefix of the buffer whose chunks are pairwise
adjacent and whose first chunk starts exactly at the expected block.
Returns (released chunks, new expected block, remaining buffer). -/
def releaseBuffer : Nat → List blockRange → List blockRange × Nat × List blockRange
  | ne, [] => ([], ne, [])
  | ne, c :: rest =>
    if c.fromBlock = ne then
      let r := releaseBuffer (c.toBlock + 1) rest
      (c :: r.1, r.2.1, r.2.2)
    else ([], ne, c :: rest)

/-- Modelled from the spec: one filter call. A chunk entirely below
`nextExpectedBlock` was already delivered and is dropped; a chunk at or
past it is buffered and the releasable prefix is returned. (A chunk
straddling `nextExpectedBlock` cannot arise — handed-out ranges are
pairwise disjoint — and is dropped.) -/
def filterModel.filter (s : filterModel) (c : blockRange) :
    List blockRange × filterModel :=
  if c.toBlock < s.nextExpectedBlock then ([], s)
  else if s.nextExpectedBlock ≤ c.fromBlock then
    let r := releaseBuffer s.nextExpectedBlock (insertByFrom c s.buffer)
    (r.1, ⟨r.2.1, r.2.2⟩)
  else ([], s)

/-- Run the filter over a whole sequence of arriving chunks, concatenating
the released prefixes. -/
def filterRun : filterModel → List blockRange → List blockRange × filterModel
  | s, [] => ([], s)
  | s, c :: rest =>
    let r := s.filter c
    let rr := filterRun r.2 rest
    (r.1 ++ rr.1, rr.2)

/-- `chunksContiguousFrom a rs`: the ranges `rs` are nonempty intervals that
tile `[a, X]` exactly, in ascending order — the first starts at `a` and each
next one starts right after the previous one ends. -/
def chunksContiguousFrom : Nat → List blockRange → Prop
  | _, [] => True
  | a, r :: rs => r.fromBlock = a ∧ r.fromBlock ≤ r.toBlock ∧
      chunksContiguousFrom (r.toBlock + 1) rs

/-- `chunksContiguousFrom` is decidable (it is a finite conjunction). -/
def chunksContiguousFromDec : (a : Nat) → (l : List blockRange) →
    Decidable (chunksContiguousFrom a l)
  | _, [] => .isTrue trivial
  | a, r :: rs =>
    haveI : Decidable (chunksContiguousFrom (r.toBlock + 1) rs) :=
      chunksContiguousFromDec (r.toBlock + 1) rs
    decidable_of_iff
      (r.fromBlock = a ∧ r.fromBlock ≤ r.toBlock ∧
        chunksContiguousFrom (r.toBlock + 1) rs) Iff.rfl

instance : ∀ (a : Nat) (l : List blockRange), Decidable (chunksContiguousFrom a l) :=
  chunksContiguousFromDec

/-- The block number right after a contiguous tiling: `a` advanced past
every range of the list. -/
def nextAfter : Nat → List blockRange → Nat
  | a, [] => a
  | _, r :: rs => nextAfter (r.toBlock + 1) rs

/-! ### The producer

The definitions below embed the producer file itself
(`l1RollupInfoProducer` and its methods). The worker pool, whose
implementation is also not among the repository files here, is modelled
from the spec as a count of free clients: `asyncRequestRollupInfoByBlockRange`
accepts a job exactly when a client is free (otherwise it errors with
no-free-worker), and a client returns to the free pool when its response is
read from the response channel. -/

/-- The producer state. The Go struct's context, mutex, channel handles and
statistics are omitted: the context is modelled by the `ctxDone` trigger,
the outgoing channel by the list of emitted messages, and the statistics
feed only log lines. -/
structure l1RollupInfoProducer where
  syncStatus : syncStatusModel
  freeWorkers : Nat
  filterToSendOrdererResultsToConsumer : filterModel
  timeLastBLockOnL1 : Int
  ttlOfLastBlockOnL1 : Int
  waitDuration : Int
deriving DecidableEq, Repr

/-- Source: `newL1DataRetriever`. The time-to-live is assigned
`ttlOfLastBlockDefault` and then, when `renewLastBlockOnL1` is false,
assigned `ttlOfLastBlockDefault` again — mirroring the two assignments of
the source. `time.Time`'s zero value is modelled as instant `0`. -/
def newL1DataRetriever (startingBlockNumber SyncChunkSize numEthermans : Nat)
    (renewLastBlockOnL1 : Bool) : l1RollupInfoProducer :=
  let ttlOfLastBlock := if !renewLastBlockOnL1 then ttlOfLastBlockDefault else ttlOfLastBlockDefault
  { syncStatus := newSyncStatus startingBlockNumber SyncChunkSize
    freeWorkers := numEthermans
    filterToSendOrdererResultsToConsumer :=
      newFilterToSendOrdererResultsToConsumer startingBlockNumber
    timeLastBLockOnL1 := 0
    ttlOfLastBlockOnL1 := ttlOfLastBlock
    waitDuration := 0 }

/-- Source: the loop body of `launchWork`, with the pool modelled as the
count of free workers. Returns (number of workers launched, the ranges
handed to the pool in order, the final sync status). The loop stops when
`getNextRange` gives nothing or the pool has no free worker; only an
accepted range is recorded via `onStartedNewWorker`. -/
def launchWorkAux : Nat → syncStatusModel → Nat × List blockRange × syncStatusModel
  | free, st =>
    match st.getNextRange with
    | none => (0, [], st)
    | some br =>
      match free with
      | 0 => (0, [], st)
      | f + 1 =>
        let r := launchWorkAux f (st.onStartedNewWorker br)
        (r.1 + 1, br :: r.2.1, r.2.2)

/-- Source: `launchWork` on the producer: run the dispatch loop and commit
the resulting sync status and free-worker count. -/
def l1RollupInfoProducer.launchWork (l : l1RollupInfoProducer) :
    Nat × List blockRange × l1RollupInfoProducer :=
  let r := launchWorkAux l.freeWorkers l.syncStatus
  (r.1, r.2.1,
   { l with syncStatus := r.2.2, freeWorkers := l.freeWorkers - r.1 })

/-- Source: `onNewLastBlock` — feed the head observation to the sync
status, stamp the observation time, and optionally dispatch. -/
def l1RollupInfoProducer.onNewLastBlock (l : l1RollupInfoProducer)
    (lastBlock : Nat) (launchWork : Bool) (now : Int) :
    l1RollupInfoProducer × onNewLastBlockResponse :=
  let r := l.syncStatus.onNewLastBlockOnL1 lastBlock
  let l1 := { l with syncStatus := r.1, timeLastBLockOnL1 := now }
  if launchWork then ((l1.launchWork).2.2, r.2) else (l1, r.2)

/-- What wakes the producer's main loop: cancellation, the scheduled timer,
or a worker response on the response channel. -/
inductive stepTrigger where
  | ctxDone
  | timerFired
  | response (r : genericResponse)
deriving DecidableEq, Repr

/-- The environment of one loop iteration: what woke the loop, the current
instant, and what the blocking head request would return were it issued
during this iteration. -/
structure stepEnv where
  trigger : stepTrigger
  now : Int
  headRequestResult : headResponse
deriving DecidableEq, Repr

/-- Source: `renewLastBlockOnL1IfNeeded`. When the head observation is
older than its time-to-live (or the call is forced), issue the blocking
head request; on error the error is only logged and the state is returned
unchanged; on success the new head is applied via `onNewLastBlock` with
dispatch. Returns the state and whether the request was issued. -/
def l1RollupInfoProducer.renewLastBlockOnL1IfNeeded (l : l1RollupInfoProducer)
    (forced : Bool) (env : stepEnv) : l1RollupInfoProducer × Bool :=
  let elapsed := env.now - l.timeLastBLockOnL1
  if l.ttlOfLastBlockOnL1 < elapsed ∨ forced = true then
    match env.headRequestResult.err with
    | some _ => (l, true)
    | none => ((l.onNewLastBlock env.headRequestResult.block true env.now).1, true)
  else (l, false)

/-- Source: `onResponseRollupInfo`. The finished range is reported to the
sync status with its success flag; a successful chunk goes through the
reorder filter and every released chunk becomes a `data` message for the
outgoing channel; a failed response forwards nothing. -/
def l1RollupInfoProducer.onResponseRollupInfo (l : l1RollupInfoProducer)
    (result : genericResponse) : List l1SyncMessage × l1RollupInfoProducer :=
  let isOk := result.err.isNone
  let l1 := { l with syncStatus := l.syncStatus.onFinishWorker result.result.blockRange isOk }
  if isOk then
    let r := l1.filterToSendOrdererResultsToConsumer.filter result.result.blockRange
    (r.1.map l1SyncMessage.data,
     { l1 with filterToSendOrdererResultsToConsumer := r.2 })
  else ([], l1)

/-- Source: `getNextTimeout`. `Idle` and `Working` use the long main-loop
timeout; `Synchronized` computes
`time.Since(timeLastBLockOnL1) + ttlOfLastBlockOnL1` and clamps it from
below by one second. -/
def l1RollupInfoProducer.getNextTimeout (l : l1RollupInfoProducer) (now : Int) : Int :=
  match l.syncStatus.getStatus with
  | .idle => timeOutMainLoop
  | .working => timeOutMainLoop
  | .synchronized =>
    let nextRenewLastBlock := (now - l.timeLastBLockOnL1) + l.ttlOfLastBlockOnL1
    max nextRenewLastBlock oneSecond

/-- The outcome of one `step` call: whether the loop continues, the data
messages sent while handling a response, whether a blocking head request
was issued, and the state. -/
structure stepResult where
  cont : Bool
  sent : List l1SyncMessage
  requestedHead : Bool
  state : l1RollupInfoProducer
deriving DecidableEq, Repr

/-- Source: the tail of `step` shared by the timer and response wake-ups:
renew the head if the status is `Synchronized`, dispatch new work, and
compute the next timeout. -/
def l1RollupInfoProducer.stepTail (l : l1RollupInfoProducer) (env : stepEnv)
    (msgs : List l1SyncMessage) : stepResult :=
  let rn := if l.syncStatus.getStatus = .synchronized
            then l.renewLastBlockOnL1IfNeeded false env
            else (l, false)
  let l3 := (rn.1.launchWork).2.2
  let l4 := { l3 with waitDuration := l3.getNextTimeout env.now }
  ⟨true, msgs, rn.2, l4⟩

/-- Source: `step`. Cancellation returns false at once; a timer wake-up
does no response handling; a response wake-up frees the responding worker
and handles the response; then the shared tail runs. -/
def l1RollupInfoProducer.step (l : l1RollupInfoProducer) (env : stepEnv) : stepResult :=
  match env.trigger with
  | .ctxDone => ⟨false, [], false, l⟩
  | .timerFired => l.stepTail env []
  | .response r =>
    let l1 := { l with freeWorkers := l.freeWorkers + 1 }
    let rr := l1.onResponseRollupInfo r
    rr.2.stepTail env rr.1

/-- Source: the loop of `start`: run `step`; while it returns true, emit a
`FullySynced` control message whenever the status just changed to
`Synchronized`, and keep the new status for the next comparison. The list
returned is the sequence of messages sent on the outgoing channel. -/
def runMainLoop : l1RollupInfoProducer → syncStatusEnum → List stepEnv → List l1SyncMessage
  | _, _, [] => []
  | l, previousStatus, env :: rest =>
    let r := l.step env
    if r.cont then
      let newStatus := r.state.syncStatus.getStatus
      let ctl := if previousStatus ≠ newStatus ∧ newStatus = .synchronized
                 then [l1SyncMessage.control .producerIsFullySynced] else []
      r.sent ++ ctl ++ runMainLoop r.state newStatus rest
    else []

/-- An observable event of `start`: a message sent on the outgoing channel,
or the blocking wait for all workers to finish. -/
inductive producerEvent where
  | sent (m : l1SyncMessage)
  | waitedFinishAllWorkers
deriving DecidableEq, Repr

/-- Source: `start` — take the initial status, run the main loop, and wait
for all workers before returning. The list is the ordered trace of
observable events up to the return of `start`. -/
def startEvents (l : l1RollupInfoProducer) (envs : List stepEnv) : List producerEvent :=
  (runMainLoop l l.syncStatus.getStatus envs).map producerEvent.sent
    ++ [producerEvent.waitedFinishAllWorkers]

/-- Source: `initialize` (the method name carries a `Producer` suffix
here). When the sync status asks for an initial head
value, the blocking head request runs; its error is returned as the error
of `initialize`, and on success the head is applied via `onNewLastBlock`
(without dispatch) before returning without error. -/
def l1RollupInfoProducer.initializeProducer (l : l1RollupInfoProducer) (env : stepEnv) :
    l1RollupInfoProducer × Option String :=
  if l.syncStatus.needToRenewLastBlockOnL1 then
    match env.headRequestResult.err with
    | some e => (l, some e)
    | none =>
      ((l.onNewLastBlock env.headRequestResult.block false env.now).1, none)
  else (l, none)

/-- Modelled from the spec: the lifecycle `init()` then `start()` — the
caller that wires them is not among the repository files here. When
`initialize` errors, `start` (the main loop) is never entered. -/
def initializeAndStart (l : l1RollupInfoProducer) (env : stepEnv)
    (envs : List stepEnv) : List producerEvent :=
  let r := l.initializeProducer env
  match r.2 with
  | some _ => []
  | none => startEvents r.1 envs

/-- The ranges of the successful worker responses a run processes: response
triggers before the first cancellation, keeping only error-free responses. -/
def okResponseRanges : List stepEnv → List blockRange
  | [] => []
  | env :: rest =>
    match env.trigger with
    | .ctxDone => []
    | .timerFired => okResponseRanges rest
    | .response r =>
      if r.err.isNone then r.result.blockRange :: okResponseRanges rest
      else okResponseRanges rest

/-- The range a data message carries, if it is one. -/
def rangeOfData : l1SyncMessage → Option blockRange
  | .data br => some br
  | .control _ => none

/-- The ranges of the data messages of a trace, in order. -/
def dataRanges (ms : List l1SyncMessage) : List blockRange :=
  ms.filterMap rangeOfData

/-- One entry per continuing iteration of the main loop: the data messages
that iteration sent while handling its wake-up, and whether the status
changed to `Synchronized` at its end (the edge `start` detects). -/
def iterationBlocks : l1RollupInfoProducer → syncStatusEnum → List stepEnv →
    List (List l1SyncMessage × Bool)
  | _, _, [] => []
  | l, previousStatus, env :: rest =>
    let r := l.step env
    if r.cont then
      let newStatus := r.state.syncStatus.getStatus
      (r.sent, decide (previousStatus ≠ newStatus ∧ newStatus = .synchronized))
        :: iterationBlocks r.state newStatus rest
    else []

/-- Flatten iteration blocks: each iteration's data messages followed by
one `FullySynced` control message exactly when it is marked. -/
def renderBlocks : List (List l1SyncMessage × Bool) → List l1SyncMessage
  | [] => []
  | b :: rest =>
    b.1 ++ (if b.2 then [l1SyncMessage.control .producerIsFullySynced] else [])
      ++ renderBlocks rest

/-- A per-wake-up bound on worker responses: any error-free response
carries a well-formed range whose upper end does not exceed `finalHead`
(as holds for ranges dispatched from a head never above `finalHead`). -/
def responseBoundedBy (finalHead : Nat) (env : stepEnv) : Bool :=
  match env.trigger with
  | .response r0 =>
    if r0.err.isNone then
      decide (r0.result.blockRange.fromBlock ≤ r0.result.blockRange.toBlock) &&
      decide (r0.result.blockRange.toBlock ≤ finalHead)
    else true
  | _ => true

end Synchronizer

namespace Sequencer

/-! ### The sequencer's batch resources

Embedding of `batchResources` and its `sub` method. `state.ZKCounters` and
its `Sub` method are not among the repository files here, so the type of
the counters is a parameter and the counter subtraction is an arbitrary
function `counterSub`, returning the updated counters together with an
optional error message — every theorem below holds for every such
function. Go errors built by `fmt.Errorf("%w...", sentinel, ...)` are
modelled as a record of the wrapped sentinel and the formatted detail. -/

/-- The sentinel errors relevant here (`errors.Is` targets). -/
inductive sentinelError where
  | errBatchRemainingResourcesUnderflow
deriving DecidableEq, Repr

/-- A Go error value: which sentinel it wraps (if any) and its detail. -/
structure wrappedError where
  wraps : Option sentinelError
  text : String
deriving DecidableEq, Repr

/-- Source: `batchResources` — the ZKEVM resources used by a batch/tx. -/
structure batchResources (ZK : Type) where
  zKCounters : ZK
  bytes : Nat

/-- Source: `batchResources.sub`. Returns the final value of the receiver
(Go mutates it in place) and the error, if any. When `other.bytes` exceeds
`r.bytes` it errors at once; otherwise `r.bytes` is decremented, the
counter subtraction runs, and on its failure `r.bytes` is restored from
the backup; both errors wrap `ErrBatchRemainingResourcesUnderflow`. -/
def batchResources.sub {ZK : Type} (counterSub : ZK → ZK → Option String × ZK)
    (r other : batchResources ZK) : batchResources ZK × Option wrappedError :=
  if other.bytes > r.bytes then
    (r, some ⟨some .errBatchRemainingResourcesUnderflow, "Resource: Bytes"⟩)
  else
    let bytesBackup := r.bytes
    let r1 : batchResources ZK := { r with bytes := r.bytes - other.bytes }
    match counterSub r1.zKCounters other.zKCounters with
    | (some msg, zk) =>
      ({ zKCounters := zk, bytes := bytesBackup },
       some ⟨some .errBatchRemainingResourcesUnderflow, msg⟩)
    | (none, zk) => ({ zKCounters := zk, bytes := r1.bytes }, none)

end Sequencer

/-! ### Theorems -/

namespace Synchronizer

theorem nextAfter_append (a : Nat) (l1 l2 : List blockRange) :
    nextAfter a (l1 ++ l2) = nextAfter (nextAfter a l1) l2 := by
  induction l1 generalizing a with
  | nil => rfl
  | cons r rs ih => simp [nextAfter, ih]

theorem chunksContiguousFrom_append {a : Nat} {l1 l2 : List blockRange}
    (h1 : chunksContiguousFrom a l1)
    (h2 : chunksContiguousFrom (nextAfter a l1) l2) :
    chunksContiguousFrom a (l1 ++ l2) := by
  induction l1 generalizing a with
  | nil => simpa [nextAfter] using h2
  | cons r rs ih =>
    obtain ⟨hfrom, hwf, hrest⟩ := h1
    exact ⟨hfrom, hwf, ih hrest (by simpa [nextAfter] using h2)⟩

theorem insertByFrom_mem {b c : blockRange} :
    ∀ {l : List blockRange}, b ∈ insertByFrom c l → b ∈ l ∨ b = c := by
  intro l
  induction l with
  | nil =>
    intro h
    simp only [insertByFrom, List.mem_singleton] at h
    exact Or.inr h
  | cons x xs ih =>
    intro h
    by_cases hle : c.fromBlock ≤ x.fromBlock
    · rw [insertByFrom, if_pos hle] at h
      rcases List.mem_cons.mp h with h1 | h1
      · exact Or.inr h1
      · exact Or.inl h1
    · rw [insertByFrom, if_neg hle] at h
      rcases List.mem_cons.mp h with h1 | h1
      · exact Or.inl (List.mem_cons.mpr (Or.inl h1))
      · rcases ih h1 with h2 | h2
        · exact Or.inl (List.mem_cons.mpr (Or.inr h2))
        · exact Or.inr h2

theorem releaseBuffer_spec :
    ∀ (buf : List blockRange) (ne : Nat),
      (∀ b ∈ buf, b.fromBlock ≤ b.toBlock) →
      chunksContiguousFrom ne (releaseBuffer ne buf).1 ∧
      (releaseBuffer ne buf).2.1 = nextAfter ne (releaseBuffer ne buf).1 ∧
      (∀ b ∈ (releaseBuffer ne buf).2.2, b ∈ buf) ∧
      (∀ o ∈ (releaseBuffer ne buf).1, o ∈ buf) := by
  intro buf
  induction buf with
  | nil =>
    intro ne _
    exact ⟨trivial, rfl, by simp [releaseBuffer], by simp [releaseBuffer]⟩
  | cons c rest ih =>
    intro ne hwf
    obtain ⟨hcont, hne, hmem, homem⟩ :=
      ih (c.toBlock + 1) (fun b hb => hwf b (by simp [hb]))
    by_cases hc : c.fromBlock = ne
    · simp only [releaseBuffer, if_pos hc]
      refine ⟨⟨hc, hwf c (by simp), hcont⟩, ?_, ?_, ?_⟩
      · simpa [nextAfter] using hne
      · intro b hb
        exact List.mem_cons_of_mem c (hmem b hb)
      · intro o ho
        rcases List.mem_cons.mp ho with h1 | h1
        · simp [h1]
        · exact List.mem_cons_of_mem c (homem o h1)
    · simp only [releaseBuffer, if_neg hc]
      exact ⟨trivial, rfl, fun b hb => hb, fun o ho => absurd ho (List.not_mem_nil o)⟩

theorem filter_spec (s : filterModel) (c : blockRange)
    (hbuf : ∀ b ∈ s.buffer, b.fromBlock ≤ b.toBlock)
    (hc : c.fromBlock ≤ c.toBlock) :
    chunksContiguousFrom s.nextExpectedBlock (s.filter c).1 ∧
    (s.filter c).2.nextExpectedBlock = nextAfter s.nextExpectedBlock (s.filter c).1 ∧
    (∀ b ∈ (s.filter c).2.buffer, b ∈ s.buffer ∨ b = c) ∧
    (∀ o ∈ (s.filter c).1, o ∈ s.buffer ∨ o = c) := by
  unfold filterModel.filter
  split
  · exact ⟨trivial, rfl, fun b hb => Or.inl hb, by simp⟩
  · split
    · have hins : ∀ b ∈ insertByFrom c s.buffer, b.fromBlock ≤ b.toBlock := by
        intro b hb
        rcases insertByFrom_mem hb with h | h
        · exact hbuf b h
        · exact h ▸ hc
      obtain ⟨hcont, hne, hmem, homem⟩ :=
        releaseBuffer_spec (insertByFrom c s.buffer) s.nextExpectedBlock hins
      exact ⟨hcont, hne,
        fun b hb => insertByFrom_mem (hmem b hb),
        fun o ho => insertByFrom_mem (homem o ho)⟩
    · exact ⟨trivial, rfl, fun b hb => Or.inl hb, by simp⟩

theorem filterRun_spec :
    ∀ (inputs : List blockRange) (s : filterModel),
      (∀ b ∈ s.buffer, b.fromBlock ≤ b.toBlock) →
      (∀ c ∈ inputs, c.fromBlock ≤ c.toBlock) →
      chunksContiguousFrom s.nextExpectedBlock (filterRun s inputs).1 ∧
      (filterRun s inputs).2.nextExpectedBlock
        = nextAfter s.nextExpectedBlock (filterRun s inputs).1 ∧
      (∀ b ∈ (filterRun s inputs).2.buffer, b ∈ s.buffer ∨ b ∈ inputs) ∧
      (∀ o ∈ (filterRun s inputs).1, o ∈ s.buffer ∨ o ∈ inputs) := by
  intro inputs
  induction inputs with
  | nil =>
    intro s hbuf _
    exact ⟨trivial, rfl, fun b hb => Or.inl hb, by simp [filterRun]⟩
  | cons c rest ih =>
    intro s hbuf hin
    have hc : c.fromBlock ≤ c.toBlock := hin c (by simp)
    obtain ⟨hcont1, hne1, hmem1, homem1⟩ := filter_spec s c hbuf hc
    have hbuf2 : ∀ b ∈ (s.filter c).2.buffer, b.fromBlock ≤ b.toBlock := by
      intro b hb
      rcases hmem1 b hb with h | h
      · exact hbuf b h
      · exact h ▸ hc
    obtain ⟨hcont2, hne2, hmem2, homem2⟩ :=
      ih (s.filter c).2 hbuf2 (fun x hx => hin x (by simp [hx]))
    simp only [filterRun]
    refine ⟨?_, ?_, ?_, ?_⟩
    · exact chunksContiguousFrom_append hcont1 (hne1 ▸ hcont2)
    · rw [hne2, hne1]
      exact (nextAfter_append s.nextExpectedBlock (s.filter c).1
        (filterRun (s.filter c).2 rest).1).symm
    · intro b hb
      rcases hmem2 b hb with h | h
      · rcases hmem1 b h with h' | h'
        · exact Or.inl h'
        · exact Or.inr (by simp [h'])
      · exact Or.inr (by simp [h])
    · intro o ho
      rcases List.mem_append.mp ho with h | h
      · rcases homem1 o h with h' | h'
        · exact Or.inl h'
        · exact Or.inr (by simp [h'])
      · rcases homem2 o h with h' | h'
        · rcases hmem1 o h' with h'' | h''
          · exact Or.inl h''
          · exact Or.inr (by simp [h''])
        · exact Or.inr (by simp [h'])

/-! ### Helper lemmas -/

theorem getNextRange_wf {s : syncStatusModel} {br : blockRange}
    (h1 : 1 ≤ s.chunkSize) (h : s.getNextRange = some br) :
    br.fromBlock = s.nextBlockToAsk ∧ br.fromBlock ≤ br.toBlock := by
  cases hl : s.lastBlockOnL1 with
  | none => simp [syncStatusModel.getNextRange, hl] at h
  | some last =>
    simp only [syncStatusModel.getNextRange, hl] at h
    by_cases hle : s.nextBlockToAsk ≤ last
    · rw [if_pos hle] at h
      have hbr := Option.some.inj h
      rw [← hbr]
      refine ⟨rfl, ?_⟩
      show s.nextBlockToAsk ≤ (s.nextBlockToAsk + s.chunkSize - 1) ⊓ last
      exact le_min (by omega) hle
    · rw [if_neg hle] at h
      exact absurd h (by simp)

theorem getNextRange_from {s : syncStatusModel} {br : blockRange}
    (h : s.getNextRange = some br) : br.fromBlock = s.nextBlockToAsk := by
  cases hl : s.lastBlockOnL1 with
  | none => simp [syncStatusModel.getNextRange, hl] at h
  | some last =>
    simp only [syncStatusModel.getNextRange, hl] at h
    by_cases hle : s.nextBlockToAsk ≤ last
    · rw [if_pos hle] at h
      rw [← Option.some.inj h]
    · rw [if_neg hle] at h
      exact absurd h (by simp)

theorem launchWork_filter (l : l1RollupInfoProducer) :
    ((l.launchWork).2.2).filterToSendOrdererResultsToConsumer
      = l.filterToSendOrdererResultsToConsumer := rfl

theorem onNewLastBlock_filter (l : l1RollupInfoProducer) (b : Nat) (launch : Bool)
    (now : Int) :
    ((l.onNewLastBlock b launch now).1).filterToSendOrdererResultsToConsumer
      = l.filterToSendOrdererResultsToConsumer := by
  unfold l1RollupInfoProducer.onNewLastBlock
  cases launch <;> simp [launchWork_filter]

theorem renew_filter (l : l1RollupInfoProducer) (forced : Bool) (env : stepEnv) :
    ((l.renewLastBlockOnL1IfNeeded forced env).1).filterToSendOrdererResultsToConsumer
      = l.filterToSendOrdererResultsToConsumer := by
  simp only [l1RollupInfoProducer.renewLastBlockOnL1IfNeeded]
  cases h : env.headRequestResult.err with
  | none =>
    by_cases hcond : l.ttlOfLastBlockOnL1 < env.now - l.timeLastBLockOnL1 ∨ forced = true <;>
      simp [hcond, onNewLastBlock_filter]
  | some e =>
    by_cases hcond : l.ttlOfLastBlockOnL1 < env.now - l.timeLastBLockOnL1 ∨ forced = true <;>
      simp [hcond]

theorem stepTail_cont (l : l1RollupInfoProducer) (env : stepEnv)
    (msgs : List l1SyncMessage) : (l.stepTail env msgs).cont = true := rfl

theorem stepTail_sent (l : l1RollupInfoProducer) (env : stepEnv)
    (msgs : List l1SyncMessage) : (l.stepTail env msgs).sent = msgs := rfl

theorem stepTail_filter (l : l1RollupInfoProducer) (env : stepEnv)
    (msgs : List l1SyncMessage) :
    ((l.stepTail env msgs).state).filterToSendOrdererResultsToConsumer
      = l.filterToSendOrdererResultsToConsumer := by
  unfold l1RollupInfoProducer.stepTail
  by_cases h : l.syncStatus.getStatus = .synchronized <;>
    simp [h, renew_filter, launchWork_filter]

theorem onResponse_ok {r0 : genericResponse} (l : l1RollupInfoProducer)
    (h : r0.err = none) :
    l.onResponseRollupInfo r0
      = (((l.filterToSendOrdererResultsToConsumer.filter r0.result.blockRange).1).map
           l1SyncMessage.data,
         { l with
             syncStatus := l.syncStatus.onFinishWorker r0.result.blockRange true
             filterToSendOrdererResultsToConsumer :=
               (l.filterToSendOrdererResultsToConsumer.filter r0.result.blockRange).2 }) := by
  simp [l1RollupInfoProducer.onResponseRollupInfo, h]

theorem onResponse_err {r0 : genericResponse} (l : l1RollupInfoProducer) (e : String)
    (h : r0.err = some e) :
    l.onResponseRollupInfo r0
      = ([], { l with syncStatus := l.syncStatus.onFinishWorker r0.result.blockRange false }) := by
  simp [l1RollupInfoProducer.onResponseRollupInfo, h]

theorem dataRanges_nil : dataRanges [] = [] := rfl

theorem dataRanges_append (a b : List l1SyncMessage) :
    dataRanges (a ++ b) = dataRanges a ++ dataRanges b := by
  simp [dataRanges]

theorem dataRanges_map_data (l : List blockRange) :
    dataRanges (l.map l1SyncMessage.data) = l := by
  induction l with
  | nil => rfl
  | cons x xs ih => simp [dataRanges, rangeOfData, List.filterMap_cons] at ih ⊢; exact ih

theorem dataRanges_ctl (c : Prop) [Decidable c] :
    dataRanges (if c then [l1SyncMessage.control .producerIsFullySynced] else []) = [] := by
  split <;> rfl

theorem step_ctxDone {env : stepEnv} (l : l1RollupInfoProducer)
    (h : env.trigger = .ctxDone) : l.step env = ⟨false, [], false, l⟩ := by
  simp [l1RollupInfoProducer.step, h]

theorem step_timer {env : stepEnv} (l : l1RollupInfoProducer)
    (h : env.trigger = .timerFired) : l.step env = l.stepTail env [] := by
  simp [l1RollupInfoProducer.step, h]

theorem step_response {env : stepEnv} {r0 : genericResponse} (l : l1RollupInfoProducer)
    (h : env.trigger = .response r0) :
    l.step env
      = ((({ l with freeWorkers := l.freeWorkers + 1 } : l1RollupInfoProducer).onResponseRollupInfo r0).2).stepTail env
          ((({ l with freeWorkers := l.freeWorkers + 1 } : l1RollupInfoProducer).onResponseRollupInfo r0).1) := by
  simp [l1RollupInfoProducer.step, h]

/-! ### Claims about the producer's pure computations -/

/-- C9: the constructed producer does not depend on `renewLastBlockOnL1`;
in particular the time-to-live of the head observation is the 5-second
default for either flag value, so every subsequent behaviour coincides. -/
theorem claim_C9 (startingBlockNumber SyncChunkSize numEthermans : Nat)
    (b1 b2 : Bool) :
    newL1DataRetriever startingBlockNumber SyncChunkSize numEthermans b1
      = newL1DataRetriever startingBlockNumber SyncChunkSize numEthermans b2 ∧
    (newL1DataRetriever startingBlockNumber SyncChunkSize numEthermans b1).ttlOfLastBlockOnL1
      = ttlOfLastBlockDefault ∧
    ttlOfLastBlockDefault = 5 * 1000000000 := by
  cases b1 <;> cases b2 <;> exact ⟨rfl, rfl, rfl⟩

/-- C2 (counterexample): at a synchronized state with the head observed
2 s ago and a 5 s time-to-live, `getNextTimeout` returns 7 s — elapsed
plus ttl — not the claimed `max (ttl - elapsed) 1s = 3 s`. -/
theorem claim_C2_counterexample :
    let l : l1RollupInfoProducer :=
      ⟨⟨0, 10, some 5, 6, []⟩, 1, ⟨0, []⟩, 0, ttlOfLastBlockDefault, 0⟩
    l.syncStatus.getStatus = .synchronized ∧
    l.getNextTimeout 2000000000 = 7000000000 ∧
    max (l.ttlOfLastBlockOnL1 - (2000000000 - l.timeLastBLockOnL1)) oneSecond
      = 3000000000 ∧
    l.getNextTimeout 2000000000
      ≠ max (l.ttlOfLastBlockOnL1 - (2000000000 - l.timeLastBLockOnL1)) oneSecond := by
  decide

/-- C2 (amended): `getNextTimeout` returns the 5-minute main-loop timeout
when the status is `Idle` or `Working`, and
`max ((now - lastBlockTimestamp) + ttlOfLastBlock) 1s` — the elapsed time
plus the time-to-live, not the time-to-live minus the elapsed time — when
the status is `Synchronized`. -/
theorem claim_C2 (l : l1RollupInfoProducer) (now : Int) :
    (l.syncStatus.getStatus = .idle → l.getNextTimeout now = timeOutMainLoop) ∧
    (l.syncStatus.getStatus = .working → l.getNextTimeout now = timeOutMainLoop) ∧
    (l.syncStatus.getStatus = .synchronized →
      l.getNextTimeout now
        = max ((now - l.timeLastBLockOnL1) + l.ttlOfLastBlockOnL1) oneSecond) := by
  refine ⟨fun h => ?_, fun h => ?_, fun h => ?_⟩ <;>
    simp [l1RollupInfoProducer.getNextTimeout, h]

/-- C7: the dispatch loop hands ranges to the pool one by one, records via
`onStartedNewWorker` exactly the accepted ranges (each once, none twice),
and stops exactly when no next range remains or every worker is busy; a
range the pool rejected is never recorded as started. -/
theorem launchWorkAux_none {free : Nat} {st : syncStatusModel}
    (h : st.getNextRange = none) : launchWorkAux free st = (0, [], st) := by
  cases free <;> (conv_lhs => rw [launchWorkAux]) <;> rw [h]

theorem launchWorkAux_zero_some {st : syncStatusModel} {br : blockRange}
    (h : st.getNextRange = some br) : launchWorkAux 0 st = (0, [], st) := by
  conv_lhs => rw [launchWorkAux]
  rw [h]

theorem launchWorkAux_succ_some {f : Nat} {st : syncStatusModel} {br : blockRange}
    (h : st.getNextRange = some br) :
    launchWorkAux (f + 1) st
      = ((launchWorkAux f (st.onStartedNewWorker br)).1 + 1,
         br :: (launchWorkAux f (st.onStartedNewWorker br)).2.1,
         (launchWorkAux f (st.onStartedNewWorker br)).2.2) := by
  conv_lhs => rw [launchWorkAux]
  rw [h]

theorem launchWorkAux_spec :
    ∀ (free : Nat) (st : syncStatusModel), 1 ≤ st.chunkSize →
      (launchWorkAux free st).1 = (launchWorkAux free st).2.1.length ∧
      (launchWorkAux free st).2.2.processingRanges
        = st.processingRanges ++ (launchWorkAux free st).2.1 ∧
      (launchWorkAux free st).2.2.chunkSize = st.chunkSize ∧
      st.nextBlockToAsk ≤ (launchWorkAux free st).2.2.nextBlockToAsk ∧
      (∀ b ∈ (launchWorkAux free st).2.1,
        st.nextBlockToAsk ≤ b.fromBlock ∧ b.fromBlock ≤ b.toBlock ∧
        b.toBlock < (launchWorkAux free st).2.2.nextBlockToAsk) ∧
      (launchWorkAux free st).2.1.Pairwise (fun a b => a.toBlock < b.fromBlock) ∧
      ((launchWorkAux free st).2.2.getNextRange = none ∨ (launchWorkAux free st).1 = free) := by
  intro free
  induction free with
  | zero =>
    intro st _
    cases hnr : st.getNextRange with
    | none =>
      rw [launchWorkAux_none hnr]
      exact ⟨rfl, by simp, rfl, le_refl _, by simp, by simp, Or.inl hnr⟩
    | some br =>
      rw [launchWorkAux_zero_some hnr]
      exact ⟨rfl, by simp, rfl, le_refl _, by simp, by simp, Or.inr rfl⟩
  | succ f ih =>
    intro st hchunk
    cases hnr : st.getNextRange with
    | none =>
      rw [launchWorkAux_none hnr]
      exact ⟨rfl, by simp, rfl, le_refl _, by simp, by simp, Or.inl hnr⟩
    | some br =>
      obtain ⟨hbrfrom, hbrwf⟩ := getNextRange_wf hchunk hnr
      have hih := ih (st.onStartedNewWorker br)
        (by simpa [syncStatusModel.onStartedNewWorker] using hchunk)
      obtain ⟨hlen, hproc, hcs, hmono, hall, hpw, hstop⟩ := hih
      have hnext2 : (st.onStartedNewWorker br).nextBlockToAsk = br.toBlock + 1 := rfl
      rw [launchWorkAux_succ_some hnr]
      dsimp only
      refine ⟨?_, ?_, ?_, ?_, ?_, ?_, ?_⟩
      · simp [hlen]
      · rw [hproc]
        simp [syncStatusModel.onStartedNewWorker]
      · exact hcs
      · show st.nextBlockToAsk ≤ (launchWorkAux f (st.onStartedNewWorker br)).2.2.nextBlockToAsk
        rw [hnext2] at hmono
        omega
      · intro b hb
        rcases List.mem_cons.mp hb with hb | hb
        · subst hb
          refine ⟨le_of_eq hbrfrom.symm, hbrwf, ?_⟩
          have := hnext2 ▸ hmono
          omega
        · obtain ⟨h1, h2, h3⟩ := hall b hb
          rw [hnext2] at h1
          exact ⟨by omega, h2, h3⟩
      · refine List.pairwise_cons.mpr ⟨?_, hpw⟩
        intro b hb
        obtain ⟨h1, _, _⟩ := hall b hb
        rw [hnext2] at h1
        omega
      · rcases hstop with h | h
        · exact Or.inl h
        · exact Or.inr (by omega)

theorem pairwise_lt_nodup {l : List blockRange}
    (hwf : ∀ b ∈ l, b.fromBlock ≤ b.toBlock)
    (hpw : l.Pairwise (fun a b => a.toBlock < b.fromBlock)) : l.Nodup := by
  induction l with
  | nil => exact List.nodup_nil
  | cons x xs ih =>
    rcases List.pairwise_cons.mp hpw with ⟨hx, hxs⟩
    refine List.nodup_cons.mpr
      ⟨?_, ih (fun b hb => hwf b (List.mem_cons_of_mem x hb)) hxs⟩
    intro hmem
    have h1 := hx x hmem
    have h2 := hwf x (List.mem_cons_self x xs)
    omega

/-- C7: the dispatch loop (`launchWork`) asks the sync status for ranges
and hands them to the pool: the number of launched workers equals the
number of recorded ranges, the in-flight set grows by exactly the accepted
ranges (each recorded once — they are pairwise distinct), the loop stops
exactly when no next range remains or every worker was consumed, and a
range the pool rejected (returned when workers remain exhausted) is never
among the recorded ones. -/
theorem claim_C7 (free : Nat) (st : syncStatusModel) (hchunk : 1 ≤ st.chunkSize) :
    (launchWorkAux free st).1 = (launchWorkAux free st).2.1.length ∧
    (launchWorkAux free st).2.2.processingRanges
      = st.processingRanges ++ (launchWorkAux free st).2.1 ∧
    (launchWorkAux free st).2.1.Nodup ∧
    ((launchWorkAux free st).2.2.getNextRange = none ∨ (launchWorkAux free st).1 = free) ∧
    (∀ br, (launchWorkAux free st).2.2.getNextRange = some br →
      br ∉ (launchWorkAux free st).2.1) := by
  obtain ⟨hlen, hproc, _, _, hall, hpw, hstop⟩ := launchWorkAux_spec free st hchunk
  refine ⟨hlen, hproc, ?_, hstop, ?_⟩
  · exact pairwise_lt_nodup (fun b hb => (hall b hb).2.1) hpw
  · intro br hbr hmem
    have hfrom := getNextRange_from hbr
    obtain ⟨_, h2, h3⟩ := hall br hmem
    omega

/-- C7 (witness): with 2 free workers, head 129, chunk size 10 and next
block 100, the dispatch loop launches the two ranges `[100,109]`,
`[110,119]` and stops with a free-worker exhaustion. -/
theorem claim_C7_witness :
    1 ≤ (⟨100, 10, some 129, 100, []⟩ : syncStatusModel).chunkSize ∧
    ((launchWorkAux 2 ⟨100, 10, some 129, 100, []⟩).1
        = (launchWorkAux 2 ⟨100, 10, some 129, 100, []⟩).2.1.length ∧
      (launchWorkAux 2 ⟨100, 10, some 129, 100, []⟩).2.2.processingRanges
        = (⟨100, 10, some 129, 100, []⟩ : syncStatusModel).processingRanges
            ++ (launchWorkAux 2 ⟨100, 10, some 129, 100, []⟩).2.1 ∧
      (launchWorkAux 2 ⟨100, 10, some 129, 100, []⟩).2.1.Nodup ∧
      ((launchWorkAux 2 ⟨100, 10, some 129, 100, []⟩).2.2.getNextRange = none ∨
        (launchWorkAux 2 ⟨100, 10, some 129, 100, []⟩).1 = 2) ∧
      (∀ br, (launchWorkAux 2 ⟨100, 10, some 129, 100, []⟩).2.2.getNextRange = some br →
        br ∉ (launchWorkAux 2 ⟨100, 10, some 129, 100, []⟩).2.1)) :=
  ⟨by decide, claim_C7 2 ⟨100, 10, some 129, 100, []⟩ (by decide)⟩

/-- C6: `onResponseRollupInfo` — an error-free response is reported to the
sync status as finished-successfully and its chunk goes through the
reorder filter, the forwarded messages being exactly the released chunks;
an errored response is reported as finished-unsuccessfully, nothing is
forwarded (no error ever reaches the outgoing channel), the filter state
is untouched, and the sync status has rewound `nextBlockToAsk` to at most
the failed range's first block, so the next dispatch step re-issues it. -/
theorem claim_C6 (l : l1RollupInfoProducer) (result : genericResponse) :
    (result.err = none →
      (l.onResponseRollupInfo result).2.syncStatus
          = l.syncStatus.onFinishWorker result.result.blockRange true ∧
      (l.onResponseRollupInfo result).1
          = ((l.filterToSendOrdererResultsToConsumer.filter result.result.blockRange).1).map
              l1SyncMessage.data ∧
      (l.onResponseRollupInfo result).2.filterToSendOrdererResultsToConsumer
          = (l.filterToSendOrdererResultsToConsumer.filter result.result.blockRange).2) ∧
    (∀ e, result.err = some e →
      (l.onResponseRollupInfo result).1 = [] ∧
      (l.onResponseRollupInfo result).2.syncStatus
          = l.syncStatus.onFinishWorker result.result.blockRange false ∧
      (l.onResponseRollupInfo result).2.syncStatus.nextBlockToAsk
          ≤ result.result.blockRange.fromBlock ∧
      (l.onResponseRollupInfo result).2.filterToSendOrdererResultsToConsumer
          = l.filterToSendOrdererResultsToConsumer) := by
  constructor
  · intro h
    rw [onResponse_ok l h]
    exact ⟨rfl, rfl, rfl⟩
  · intro e h
    rw [onResponse_err l e h]
    refine ⟨rfl, rfl, ?_, rfl⟩
    show (l.syncStatus.onFinishWorker result.result.blockRange false).nextBlockToAsk
      ≤ result.result.blockRange.fromBlock
    simp [syncStatusModel.onFinishWorker]

/-- C5: `initialize` — when the sync status needs an initial head value and
the blocking head request errors, `initialize` returns that very error and
the main loop produces no event at all (it is never entered); when the
request succeeds, the new head is applied through `onNewLastBlock` (without
dispatching) and `initialize` returns no error. -/
theorem claim_C5 (l : l1RollupInfoProducer) (env : stepEnv) (envs : List stepEnv) :
    (∀ e, l.syncStatus.needToRenewLastBlockOnL1 = true →
      env.headRequestResult.err = some e →
      (l.initializeProducer env).2 = some e ∧ initializeAndStart l env envs = []) ∧
    (l.syncStatus.needToRenewLastBlockOnL1 = true →
      env.headRequestResult.err = none →
      l.initializeProducer env
        = ((l.onNewLastBlock env.headRequestResult.block false env.now).1, none)) := by
  constructor
  · intro e hneed herr
    have hinit : l.initializeProducer env = (l, some e) := by
      simp [l1RollupInfoProducer.initializeProducer, hneed, herr]
    refine ⟨by rw [hinit], ?_⟩
    simp [initializeAndStart, hinit]
  · intro hneed hok
    simp [l1RollupInfoProducer.initializeProducer, hneed, hok]

/-- C4: during the main loop the blocking head refresh runs only when the
status (entering the shared tail of `step`) is `Synchronized` and the head
observation is older than its time-to-live; a failed refresh (the request
returned an error) leaves the producer state exactly as it was — the stale
head and its timestamp are retained — and the loop continues. -/
theorem claim_C4 (l : l1RollupInfoProducer) (env : stepEnv)
    (msgs : List l1SyncMessage) :
    ((l.stepTail env msgs).requestedHead = true →
      l.syncStatus.getStatus = .synchronized ∧
      l.ttlOfLastBlockOnL1 < env.now - l.timeLastBLockOnL1) ∧
    ((l.renewLastBlockOnL1IfNeeded false env).2 = true ↔
      l.ttlOfLastBlockOnL1 < env.now - l.timeLastBLockOnL1) ∧
    (∀ e, env.headRequestResult.err = some e →
      (l.renewLastBlockOnL1IfNeeded false env).1 = l) ∧
    (l.stepTail env msgs).cont = true := by
  have hiff : (l.renewLastBlockOnL1IfNeeded false env).2 = true ↔
      l.ttlOfLastBlockOnL1 < env.now - l.timeLastBLockOnL1 := by
    simp only [l1RollupInfoProducer.renewLastBlockOnL1IfNeeded]
    by_cases hcond : l.ttlOfLastBlockOnL1 < env.now - l.timeLastBLockOnL1
    · cases h : env.headRequestResult.err <;> simp [hcond, h]
    · simp [hcond]
  refine ⟨?_, hiff, ?_, rfl⟩
  · intro hreq
    by_cases hsync : l.syncStatus.getStatus = .synchronized
    · refine ⟨hsync, ?_⟩
      apply hiff.mp
      revert hreq
      simp [l1RollupInfoProducer.stepTail, hsync]
    · exfalso
      revert hreq
      simp [l1RollupInfoProducer.stepTail, hsync]
  · intro e herr
    simp only [l1RollupInfoProducer.renewLastBlockOnL1IfNeeded, herr]
    by_cases hcond : l.ttlOfLastBlockOnL1 < env.now - l.timeLastBLockOnL1 <;> simp [hcond]

theorem runMainLoop_stops_at_ctxDone :
    ∀ (pre : List stepEnv) (l : l1RollupInfoProducer) (prev : syncStatusEnum)
      (envd : stepEnv) (post : List stepEnv), envd.trigger = .ctxDone →
      runMainLoop l prev (pre ++ envd :: post) = runMainLoop l prev (pre ++ [envd]) := by
  intro pre
  induction pre with
  | nil =>
    intro l prev envd post h
    simp [runMainLoop, step_ctxDone l h]
  | cons e rest ih =>
    intro l prev envd post h
    show runMainLoop l prev (e :: (rest ++ envd :: post))
      = runMainLoop l prev (e :: (rest ++ [envd]))
    simp only [runMainLoop]
    by_cases hc : (l.step e).cont = true
    · simp only [hc, if_true]
      rw [ih _ _ envd post h]
    · simp [hc]

/-- C8: the trace of `start` ends with the (unique) wait for all workers to
finish: every message sent precedes it, so `start` returns only after
`waitFinishAllWorkers` completed; and the main loop exits at cancellation —
iterations after a `ctxDone` wake-up contribute nothing to the trace. -/
theorem claim_C8 (l : l1RollupInfoProducer) (envs : List stepEnv)
    (pre post : List stepEnv) (envd : stepEnv) :
    (∃ ms, startEvents l envs = ms ++ [producerEvent.waitedFinishAllWorkers] ∧
      ∀ e ∈ ms, e ≠ producerEvent.waitedFinishAllWorkers) ∧
    (envd.trigger = .ctxDone →
      runMainLoop l l.syncStatus.getStatus (pre ++ envd :: post)
        = runMainLoop l l.syncStatus.getStatus (pre ++ [envd])) := by
  constructor
  · refine ⟨(runMainLoop l l.syncStatus.getStatus envs).map producerEvent.sent, rfl, ?_⟩
    intro e he
    obtain ⟨m, _, hm⟩ := List.mem_map.mp he
    rw [← hm]
    intro hcontra
    exact producerEvent.noConfusion hcontra
  · intro h
    exact runMainLoop_stops_at_ctxDone pre l _ envd post h

theorem step_sent_data (l : l1RollupInfoProducer) (env : stepEnv) :
    ∀ m ∈ (l.step env).sent, ∃ br, m = l1SyncMessage.data br := by
  cases htr : env.trigger with
  | ctxDone => rw [step_ctxDone l htr]; simp
  | timerFired => rw [step_timer l htr, stepTail_sent]; simp
  | response r0 =>
    rw [step_response l htr, stepTail_sent]
    cases herr : r0.err with
    | none =>
      rw [onResponse_ok _ herr]
      intro m hm
      obtain ⟨br, _, hbr⟩ := List.mem_map.mp hm
      exact ⟨br, hbr.symm⟩
    | some e =>
      rw [onResponse_err _ e herr]
      simp

/-- C3: the trace of the main loop decomposes into one block per
iteration — the iteration's data messages followed by one `FullySynced`
control message exactly when the status changed to `Synchronized` at that
iteration — so the control message is sent after every chunk forwarded up
to and including the transition iteration and before any chunk of later
iterations; iterations themselves send only data messages, and the number
of `FullySynced` messages in the trace equals the number of transition
iterations. -/
theorem claim_C3 (l : l1RollupInfoProducer) (prev : syncStatusEnum)
    (envs : List stepEnv) :
    runMainLoop l prev envs = renderBlocks (iterationBlocks l prev envs) ∧
    (∀ b ∈ iterationBlocks l prev envs, ∀ m ∈ b.1, ∃ br, m = l1SyncMessage.data br) ∧
    (runMainLoop l prev envs).count (l1SyncMessage.control .producerIsFullySynced)
      = ((iterationBlocks l prev envs).filter (fun b => b.2)).length := by
  have hdec : ∀ (envs : List stepEnv) (l : l1RollupInfoProducer) (prev : syncStatusEnum),
      runMainLoop l prev envs = renderBlocks (iterationBlocks l prev envs) := by
    intro envs
    induction envs with
    | nil => intro l prev; rfl
    | cons env rest ih =>
      intro l prev
      simp only [runMainLoop, iterationBlocks]
      by_cases hc : (l.step env).cont = true
      · simp only [hc, if_true, renderBlocks]
        rw [ih]
        by_cases htr : prev ≠ (l.step env).state.syncStatus.getStatus ∧
            (l.step env).state.syncStatus.getStatus = .synchronized
        · simp [htr]
        · simp [htr]
      · simp [hc, renderBlocks]
  have hblocks : ∀ (envs : List stepEnv) (l : l1RollupInfoProducer) (prev : syncStatusEnum),
      ∀ b ∈ iterationBlocks l prev envs, ∀ m ∈ b.1, ∃ br, m = l1SyncMessage.data br := by
    intro envs
    induction envs with
    | nil => intro l prev b hb; exact absurd hb (by simp [iterationBlocks])
    | cons env rest ih =>
      intro l prev b hb
      simp only [iterationBlocks] at hb
      by_cases hc : (l.step env).cont = true
      · rw [if_pos hc] at hb
        rcases List.mem_cons.mp hb with hb | hb
        · subst hb
          exact step_sent_data l env
        · exact ih _ _ b hb
      · rw [if_neg hc] at hb
        exact absurd hb (by simp)
  have hcount : ∀ (blocks : List (List l1SyncMessage × Bool)),
      (∀ b ∈ blocks, ∀ m ∈ b.1, ∃ br, m = l1SyncMessage.data br) →
      (renderBlocks blocks).count (l1SyncMessage.control .producerIsFullySynced)
        = (blocks.filter (fun b => b.2)).length := by
    intro blocks
    induction blocks with
    | nil => intro _; rfl
    | cons b rest ih =>
      intro hall
      have hsent : b.1.count (l1SyncMessage.control .producerIsFullySynced) = 0 := by
        refine List.count_eq_zero.mpr ?_
        intro hmem
        obtain ⟨br, hbr⟩ := hall b (by simp) _ hmem
        exact l1SyncMessage.noConfusion hbr
      simp only [renderBlocks, List.count_append]
      rw [hsent, ih (fun x hx => hall x (by simp [hx]))]
      by_cases hb : b.2 = true
      · simp [hb, List.filter_cons]
        omega
      · simp [hb, List.filter_cons]
  refine ⟨hdec envs l prev, hblocks envs l prev, ?_⟩
  rw [hdec envs l prev]
  exact hcount _ (hblocks envs l prev)

theorem okResponseRanges_bounded (finalHead : Nat) :
    ∀ (envs : List stepEnv), (∀ env ∈ envs, responseBoundedBy finalHead env = true) →
      ∀ c ∈ okResponseRanges envs, c.fromBlock ≤ c.toBlock ∧ c.toBlock ≤ finalHead := by
  intro envs
  induction envs with
  | nil =>
    intro _ c hc
    exact absurd hc (by simp [okResponseRanges])
  | cons env rest ih =>
    intro hall c hc
    cases htr : env.trigger with
    | ctxDone =>
      simp only [okResponseRanges, htr] at hc
      exact absurd hc (by simp)
    | timerFired =>
      simp only [okResponseRanges, htr] at hc
      exact ih (fun e he => hall e (by simp [he])) c hc
    | response r0 =>
      simp only [okResponseRanges, htr] at hc
      by_cases hok : r0.err.isNone = true
      · rw [if_pos hok] at hc
        rcases List.mem_cons.mp hc with hc | hc
        · subst hc
          have hb := hall env (by simp)
          simp only [responseBoundedBy, htr, hok, if_true, Bool.and_eq_true,
            decide_eq_true_eq] at hb
          exact hb
        · exact ih (fun e he => hall e (by simp [he])) c hc
      · rw [if_neg hok] at hc
        exact ih (fun e he => hall e (by simp [he])) c hc

theorem runMainLoop_dataRanges :
    ∀ (envs : List stepEnv) (l : l1RollupInfoProducer) (prev : syncStatusEnum),
      dataRanges (runMainLoop l prev envs)
        = (filterRun l.filterToSendOrdererResultsToConsumer (okResponseRanges envs)).1 := by
  intro envs
  induction envs with
  | nil =>
    intro l prev
    simp [runMainLoop, okResponseRanges, filterRun, dataRanges]
  | cons env rest ih =>
    intro l prev
    simp only [runMainLoop]
    cases htr : env.trigger with
    | ctxDone =>
      rw [step_ctxDone l htr]
      simp [okResponseRanges, htr, filterRun, dataRanges]
    | timerFired =>
      rw [step_timer l htr]
      rw [if_pos (stepTail_cont l env [])]
      rw [stepTail_sent, List.nil_append, dataRanges_append, dataRanges_ctl,
        List.nil_append, ih, stepTail_filter]
      simp [okResponseRanges, htr]
    | response r0 =>
      rw [step_response l htr]
      cases herr : r0.err with
      | none =>
        rw [onResponse_ok _ herr]
        dsimp only
        rw [if_pos (stepTail_cont _ env _)]
        simp only [stepTail_sent, dataRanges_append, dataRanges_ctl, dataRanges_nil,
          dataRanges_map_data, List.append_nil, List.nil_append, ih, stepTail_filter]
        have hokrr : okResponseRanges (env :: rest)
            = r0.result.blockRange :: okResponseRanges rest := by
          simp [okResponseRanges, htr, herr]
        rw [hokrr]
        simp [filterRun]
      | some e =>
        rw [onResponse_err _ e herr]
        dsimp only
        rw [if_pos (stepTail_cont _ env _)]
        simp only [stepTail_sent, dataRanges_append, dataRanges_ctl, dataRanges_nil,
          List.append_nil, List.nil_append, ih, stepTail_filter]
        have hokrr : okResponseRanges (env :: rest) = okResponseRanges rest := by
          simp [okResponseRanges, htr, herr]
        rw [hokrr]

/-- C1: for every run of the producer from a freshly constructed state, the
data chunks on the outgoing channel are exactly the reorder filter's
released output on the stream of successful responses — the producer never
forwards a successful response without passing it through the filter — and
(as long as every successful response carries a well-formed range bounded
by the final head) their ranges are strictly ascending and contiguous
starting at `startingBlockNumber`, covering `[startingBlockNumber, X]` with
no gaps and no overlaps for some `X` not exceeding the final head. -/
theorem claim_C1 (startingBlockNumber SyncChunkSize numEthermans : Nat)
    (renewLastBlockOnL1 : Bool) (envs : List stepEnv) (finalHead : Nat)
    (hresp : ∀ env ∈ envs, responseBoundedBy finalHead env = true) :
    let l := newL1DataRetriever startingBlockNumber SyncChunkSize numEthermans
      renewLastBlockOnL1
    let emitted := dataRanges (runMainLoop l l.syncStatus.getStatus envs)
    emitted = (filterRun (newFilterToSendOrdererResultsToConsumer startingBlockNumber)
        (okResponseRanges envs)).1 ∧
    chunksContiguousFrom startingBlockNumber emitted ∧
    (∀ o ∈ emitted, o.toBlock ≤ finalHead) := by
  intro l emitted
  have hbound := okResponseRanges_bounded finalHead envs hresp
  have h1 : emitted = (filterRun (newFilterToSendOrdererResultsToConsumer startingBlockNumber)
      (okResponseRanges envs)).1 :=
    runMainLoop_dataRanges envs l l.syncStatus.getStatus
  obtain ⟨hcont, _, _, homem⟩ :=
    filterRun_spec (okResponseRanges envs)
      (newFilterToSendOrdererResultsToConsumer startingBlockNumber)
      (by intro b hb; exact absurd hb (List.not_mem_nil b))
      (fun c hc => (hbound c hc).1)
  refine ⟨h1, ?_, ?_⟩
  · rw [h1]
    exact hcont
  · intro o ho
    rw [h1] at ho
    rcases homem o ho with h | h
    · exact absurd h (List.not_mem_nil o)
    · exact (hbound o h).2

/-- C1 (witness): a one-worker run that receives the single successful
chunk `[100,109]` emits exactly that chunk: contiguous from block 100 and
bounded by the final head 109. -/
theorem claim_C1_witness :
    (∀ env ∈ [(⟨.response ⟨none, ⟨⟨100, 109⟩⟩⟩, 0, ⟨none, 0⟩⟩ : stepEnv)],
      responseBoundedBy 109 env = true) ∧
    (let l := newL1DataRetriever 100 10 1 true
     let emitted := dataRanges (runMainLoop l l.syncStatus.getStatus
       [(⟨.response ⟨none, ⟨⟨100, 109⟩⟩⟩, 0, ⟨none, 0⟩⟩ : stepEnv)])
     emitted = (filterRun (newFilterToSendOrdererResultsToConsumer 100)
         (okResponseRanges [(⟨.response ⟨none, ⟨⟨100, 109⟩⟩⟩, 0, ⟨none, 0⟩⟩ : stepEnv)])).1 ∧
     chunksContiguousFrom 100 emitted ∧
     (∀ o ∈ emitted, o.toBlock ≤ 109)) :=
  ⟨by decide,
   claim_C1 100 10 1 true [(⟨.response ⟨none, ⟨⟨100, 109⟩⟩⟩, 0, ⟨none, 0⟩⟩ : stepEnv)] 109
     (by decide)⟩

end Synchronizer

namespace Sequencer

/-- C10: for any counter-subtraction behaviour, `batchResources.sub` errors
exactly when `other.bytes` exceeds `r.bytes` or the ZK-counter subtraction
fails; every error wraps `ErrBatchRemainingResourcesUnderflow` and leaves
`r.bytes` unchanged (restored from the backup in the counter case), and on
success `r.bytes` decreases by exactly `other.bytes`. -/
theorem claim_C10 {ZK : Type} (counterSub : ZK → ZK → Option String × ZK)
    (r other : batchResources ZK) :
    (∀ e, (batchResources.sub counterSub r other).2 = some e →
      (batchResources.sub counterSub r other).1.bytes = r.bytes ∧
      e.wraps = some .errBatchRemainingResourcesUnderflow) ∧
    ((batchResources.sub counterSub r other).2 = none →
      (batchResources.sub counterSub r other).1.bytes + other.bytes = r.bytes) ∧
    ((batchResources.sub counterSub r other).2.isSome = true ↔
      (r.bytes < other.bytes ∨
        (counterSub r.zKCounters other.zKCounters).1.isSome = true)) := by
  by_cases hbytes : other.bytes > r.bytes
  · have hres : batchResources.sub counterSub r other
        = (r, some ⟨some .errBatchRemainingResourcesUnderflow, "Resource: Bytes"⟩) := by
      simp [batchResources.sub, hbytes]
    rw [hres]
    refine ⟨?_, ?_, ?_⟩
    · intro e he
      obtain ⟨⟩ := Option.some.inj he
      exact ⟨rfl, rfl⟩
    · intro h
      exact absurd h (by simp)
    · simp [hbytes]
  · cases hcs : counterSub r.zKCounters other.zKCounters with
    | mk msgOpt zk =>
      cases msgOpt with
      | none =>
        have hres : batchResources.sub counterSub r other
            = ({ zKCounters := zk, bytes := r.bytes - other.bytes }, none) := by
          simp [batchResources.sub, hbytes, hcs]
        rw [hres]
        refine ⟨?_, ?_, ?_⟩
        · intro e he
          exact absurd he (by simp)
        · intro _
          show r.bytes - other.bytes + other.bytes = r.bytes
          omega
        · simp [hcs]
          omega
      | some msg =>
        have hres : batchResources.sub counterSub r other
            = ({ zKCounters := zk, bytes := r.bytes },
               some ⟨some .errBatchRemainingResourcesUnderflow, msg⟩) := by
          simp [batchResources.sub, hbytes, hcs]
        rw [hres]
        refine ⟨?_, ?_, ?_⟩
        · intro e he
          obtain ⟨⟩ := Option.some.inj he
          exact ⟨rfl, rfl⟩
        · intro h
          exact absurd h (by simp)
        · simp [hcs]

end Sequencer
